import Mathlib

/-
Verification development for the Satellite-Insights visualization code.

The definitions below are a shallow embedding of the data-processing parts
of the repository:
  - src/js/gov-vs-com.js      (governmentVsCommercial._processData)
  - src/js/congestion-risk.js (Congestion.updateVis ellipse geometry)
  - src/js/main.js            (coerceRow / loadCongestion numeric coercion)
  - the LaunchSitesMap classes (site dictionary, event normalization,
    cumulative per-year snapshots, playback controls, all-time statistics).

Machine numbers are modelled as exact rationals (NaN as Option.none) and the
ellipse geometry over the reals; JS strings as Lean strings restricted to the
ASCII case folding actually exercised by the data.
-/

set_option maxRecDepth 20000

/- The kernel evaluation of concrete scenarios needs the sealed rational
primitives to unfold. -/
unseal Rat.ofScientific Rat.mul Rat.add Rat.inv Rat.sub

namespace SatViz

/- ===================== JavaScript string primitives ===================== -/

/-- ASCII lower-casing of one character: String.prototype.toLowerCase and the
/i regex flag, restricted to the ASCII range used by the datasets. -/
def lowChar (c : Char) : Char :=
  if 'A' ≤ c && c ≤ 'Z' then Char.ofNat (c.toNat + 32) else c

def lowerList (cs : List Char) : List Char := cs.map lowChar

def lowerStr (s : String) : String := String.mk (lowerList s.toList)

/-- JS whitespace class (the ASCII part relevant to the data). -/
def wsCh (c : Char) : Bool := c = ' ' || c = '\t' || c = '\n' || c = '\r'

/-- JS word character \w, i.e. [A-Za-z0-9_]. -/
def wordCh (c : Char) : Bool := c.isAlphanum || c = '_'

/-- String.prototype.trim (both ends). -/
def trimWS (cs : List Char) : List Char :=
  ((cs.dropWhile wsCh).reverse.dropWhile wsCh).reverse

/-- Does the first list occur as a leading segment of the second? -/
def leadSeg : List Char → List Char → Bool
  | [], _ => true
  | _ :: _, [] => false
  | a :: as, b :: bs => a == b && leadSeg as bs

/-- Substring occurrence test (String.prototype.includes on char lists). -/
def subSeg (needle : List Char) : List Char → Bool
  | [] => leadSeg needle []
  | c :: cs => leadSeg needle (c :: cs) || subSeg needle cs

/-- The JS regex test /pat/i.test(s) for a plain literal pattern pat (written
in lower case): case-insensitive substring occurrence. -/
def ciTest (pat : String) (s : String) : Bool :=
  subSeg pat.toList (lowerList s.toList)

/-- String.prototype.includes for an already lower-cased haystack. -/
def subStr (pat : String) (s : String) : Bool :=
  subSeg pat.toList s.toList

/-- Split a character list at every delimiter character.  This models
String.prototype.split against a one-character-class regex; a run of
delimiters produces intermediate empty pieces here where the /[;,/]+/ form
produces none, but every caller trims and filters empty pieces immediately
afterwards, so the two agree after that filtering. -/
def splitOnCh (p : Char → Bool) (cs : List Char) : List (List Char) :=
  cs.foldr
    (fun c acc =>
      if p c then [] :: acc
      else
        match acc with
        | [] => [[c]]
        | t :: ts => (c :: t) :: ts)
    [[]]

def ownDelim (c : Char) : Bool := c = ';' || c = ',' || c = '/'

/-- String(owner).split(/[;,/]+/).map(o => o.trim()).filter(Boolean) from
governmentVsCommercial._processData. -/
def splitOwnerTokens (s : String) : List String :=
  (((splitOnCh ownDelim s.toList).map trimWS).filter (fun t => !t.isEmpty)).map
    (fun t => String.mk t)

def digitVal (c : Char) : Nat := c.toNat - 48

def natOfDigits (cs : List Char) : Nat :=
  cs.foldl (fun n c => n * 10 + digitVal c) 0

/-- The first run of four consecutive decimal digits in a string: the JS
match against /(\d{4})/ used by the gov-vs-com year parser. -/
def find4Run : List Char → Option Nat
  | [] => none
  | c :: rest =>
    match rest with
    | c2 :: c3 :: c4 :: _ =>
      if c.isDigit && c2.isDigit && c3.isDigit && c4.isDigit then
        some (natOfDigits [c, c2, c3, c4])
      else find4Run rest
    | _ => none

/-- A decimal literal digits[.digits] as an exact rational.  Models the JS
unary plus on the plain decimal literals appearing in the CSV; hexadecimal,
exponent and Infinity forms are outside the model (treated as NaN). -/
def decQ (cs : List Char) : Option ℚ :=
  match splitOnCh (fun c => c = '.') cs with
  | [i] => if !i.isEmpty && i.all Char.isDigit then some ((natOfDigits i : ℚ)) else none
  | [i, f] =>
    if (!i.isEmpty || !f.isEmpty) && i.all Char.isDigit && f.all Char.isDigit then
      some ((natOfDigits i : ℚ) + (natOfDigits f : ℚ) / ((10 : ℚ) ^ f.length))
    else none
  | _ => none

/-- JS ToNumber of a string (unary +): whitespace-trimmed; empty → 0;
optional sign followed by a decimal literal; anything else is NaN
(modelled as none). -/
def parseNumJS (s : String) : Option ℚ :=
  match trimWS s.toList with
  | [] => some 0
  | '-' :: rest => (decQ rest).map (fun q => -q)
  | '+' :: rest => decQ rest
  | cs => decQ cs

/- ===================== Rows and field lookup ===================== -/

/-- A d3.csv row: ordered string-valued fields; a missing column reads as
undefined (none). -/
abbrev Row := List (String × String)

def rlook : Row → String → Option String
  | [], _ => none
  | (k, v) :: rest, k2 => if k = k2 then some v else rlook rest k2

/-- LaunchSitesMap._pick: the first field among the given names that is
neither undefined/null nor the empty string. -/
def pick (r : Row) : List String → Option String
  | [] => none
  | n :: ns =>
    match rlook r n with
    | some v => if v = "" then pick r ns else some v
    | none => pick r ns

/-- A JS chain a || b || ... || z over string-valued fields: the first truthy
(defined, non-empty) value; if every operand is falsy the chain evaluates to
its final operand. -/
def orChain : List (Option String) → Option String
  | [] => none
  | [v] => v
  | v :: vs =>
    match v with
    | some s => if s = "" then orChain vs else some s
    | none => orChain vs

/- ===================== Generic association maps ===================== -/

/-- Lookup in an insertion-ordered association list (JS Map.get /
object property read). -/
def alook {κ α : Type} [DecidableEq κ] : List (κ × α) → κ → Option α
  | [], _ => none
  | (k, v) :: rest, k2 => if k2 = k then some v else alook rest k2

/-- JS Map.set / object property write: update in place when the key exists,
append otherwise. -/
def setEntry {κ α : Type} [DecidableEq κ] (m : List (κ × α)) (k : κ) (v : α) :
    List (κ × α) :=
  if (alook m k).isSome then m.map (fun p => if p.1 = k then (k, v) else p)
  else m ++ [(k, v)]

/- ===================== gov-vs-com.js (_processData) ===================== -/

def govDateKeys : List String :=
  ["date_of_launch", "Date of Launch", "Launch Date", "Launch_Date",
   "Launch Date (UTC)", "Date"]

def govOwnerKeys : List String :=
  ["owner", "ownership", "users", "operator/owner", "Operator/Owner", "Users"]

/-- The || chain over the accepted date fields. -/
def govDateVal (r : Row) : Option String := orChain (govDateKeys.map (rlook r))

/-- parseDate from _processData: falsy input → null, otherwise the first
4-digit run of the string, else null. -/
def parseDateGov : Option String → Option Nat
  | none => none
  | some s => if s = "" then none else find4Run s.toList

/-- The year _processData uses for a row. -/
def rowYearGov (r : Row) : Option Nat := parseDateGov (govDateVal r)

/-- String(owner) applied to the owner || chain value: an undefined owner
stringifies to the literal text undefined. -/
def ownerString (r : Row) : String :=
  match orChain (govOwnerKeys.map (rlook r)) with
  | none => "undefined"
  | some s => s

/-- The owner tokens of a row: split on ; , / then trimmed and filtered. -/
def ownersOf (r : Row) : List String := splitOwnerTokens (ownerString r)

inductive OwnerCat
  | Commercial
  | Government
  | Other
deriving DecidableEq

/-- classify from _processData, applied to the token array: exact membership
of the lower-cased tokens (Array.prototype.includes), commercial checked
first.  The !ownerField guard never fires on an array argument (arrays are
truthy in JS), so it is not modelled. -/
def classifyTokens (owners : List String) : OwnerCat :=
  let normalized := owners.map lowerStr
  if normalized.contains ("commercial") then .Commercial
  else if normalized.contains ("government") then .Government
  else .Other

/-- /gov/i.test(o). -/
def matchGovI (t : String) : Bool := ciTest ("gov") t

/-- /com/i.test(o). -/
def matchComI (t : String) : Bool := ciTest ("com") t

structure GovYear where
  government : Nat
  commercial : Nat
deriving DecidableEq

/-- One iteration of the _processData forEach: parse the year, split the
owner field, apply dual attribution or single classification, and update the
per-year government/commercial counters (creating the year entry first). -/
def stepGov (yearly : List (Nat × GovYear)) (r : Row) : List (Nat × GovYear) :=
  match rowYearGov r with
  | none => yearly
  | some year =>
    if year = 0 then yearly
    else
      let owners := ownersOf r
      if owners.length = 0 then yearly
      else
        let dual :=
          decide (1 < owners.length) && owners.any matchGovI && owners.any matchComI
        let adds : Nat × Nat :=
          if dual then (1, 1)
          else
            match classifyTokens owners with
            | .Government => (1, 0)
            | .Commercial => (0, 1)
            | .Other => (0, 0)
        let cur := (alook yearly year).getD ⟨0, 0⟩
        setEntry yearly year ⟨cur.government + adds.1, cur.commercial + adds.2⟩

/-- The whole forEach of _processData (the later Object.values / sort /
difference decoration does not change the per-year counters). -/
def processDataGov (rows : List Row) : List (Nat × GovYear) :=
  rows.foldl stepGov []

def govAt (m : List (Nat × GovYear)) (y : Nat) : Nat :=
  ((alook m y).getD ⟨0, 0⟩).government

def comAt (m : List (Nat × GovYear)) (y : Nat) : Nat :=
  ((alook m y).getD ⟨0, 0⟩).commercial

/- ============== main.js numeric coercion and the apogee max ============== -/

/-- coerceRow toNum: empty string or null/undefined → NaN, else ToNumber. -/
def toNum : Option String → Option ℚ
  | none => none
  | some s => if s = "" then none else parseNumJS s

/-- One comparison step of d3.max: a NaN/undefined value is skipped, any
valid value updates the running maximum. -/
def d3maxStep (acc : Option ℚ) (v : Option ℚ) : Option ℚ :=
  match v with
  | none => acc
  | some q =>
    match acc with
    | none => some q
    | some m => some (max m q)

/-- d3.max over possibly-missing numbers: NaN (none) values are skipped and
the result is undefined when no valid value exists. -/
def d3maxOpt (vals : List (Option ℚ)) : Option ℚ :=
  vals.foldl d3maxStep none

/-- The +v || 0 re-coercion of loadCongestion (and of the updateVis
accessor): NaN becomes 0 (a zero value stays 0). -/
def nanToZero (v : Option ℚ) : ℚ := v.getD 0

/-- The || 1 default applied to the maximum (undefined or 0 become 1). -/
def orOne (o : Option ℚ) : ℚ :=
  match o with
  | none => 1
  | some m => if m = 0 then 1 else m

/-- The maximum-apogee statistic exactly as the code computes it: every
value zero-substituted by loadCongestion / the accessor, then d3.max,
then || 1. -/
def codeMaxApogee (vals : List (Option ℚ)) : ℚ :=
  orOne (d3maxOpt (vals.map (fun v => some (nanToZero v))))

/-- Modelled from the spec: the same statistic with the missing (NaN) values
excluded from the maximum rather than zero-substituted (spec 7: any
statistic computed over a field must exclude not-a-number values), with the
identical || 1 default.  Comparison definition for claim C5. -/
def specMaxApogee (vals : List (Option ℚ)) : ℚ :=
  orOne (d3maxOpt vals)

/-- The apogee field of a row list after coerceRow. -/
def apogees (rows : List Row) : List (Option ℚ) :=
  rows.map (fun r => toNum (rlook r ("apogee_(km)")))

/- ============== congestion-risk.js ellipse geometry ============== -/

/-- d3.scaleLinear().domain([0, m]).range([0, rmax]) applied to x
(no clamping). -/
noncomputable def linScale (m rmax x : ℝ) : ℝ := x * (rmax / m)

/-- The rx attribute of Congestion.updateVis: the semi-major axis
a = (ap + pe) / 2 of the drawn ellipse (ap, pe already in pixels). -/
noncomputable def semiMajorPx (ap pe : ℝ) : ℝ := (ap + pe) / 2

/-- The focal distance c = (ap - pe) / 2 used by updateVis. -/
noncomputable def cFocusPx (ap pe : ℝ) : ℝ := (ap - pe) / 2

/-- The ry attribute of Congestion.updateVis: the semi-minor axis
sqrt(max(0, a*a - c*c)). -/
noncomputable def semiMinorPx (ap pe : ℝ) : ℝ :=
  Real.sqrt (max 0 (semiMajorPx ap pe * semiMajorPx ap pe - cFocusPx ap pe * cFocusPx ap pe))

/- ===================== The launch-site dictionary ===================== -/

/-- One alternative of a site-dictionary regex: an optional word boundary,
literal pieces separated by \s*, and an optional trailing word boundary.
Every dictionary pattern of _installSiteDictionary has this shape. -/
structure RBranch where
  lb : Bool
  lits : List String
  rb : Bool

/-- Match the literal pieces (separated by \s*) at the head of s, returning
the rest of s.  The piece after a \s* starts with a non-whitespace
character, so consuming all whitespace is the unique regex match. -/
def litsMatch : List String → List Char → Option (List Char)
  | [], s => some s
  | [l], s => if leadSeg l.toList s then some (s.drop l.length) else none
  | l :: ls, s =>
    if leadSeg l.toList s then litsMatch ls ((s.drop l.length).dropWhile wsCh)
    else none

/-- A word boundary \b holds at an edge adjacent to a letter/digit literal
iff the outer neighbour (when any) is not a word character. -/
def boundaryOk (need : Bool) (c? : Option Char) : Bool :=
  !need ||
    match c? with
    | none => true
    | some c => !wordCh c

def branchAt (b : RBranch) (before : Option Char) (s : List Char) : Bool :=
  boundaryOk b.lb before &&
    match litsMatch b.lits s with
    | none => false
    | some rest => boundaryOk b.rb rest.head?

/-- Try the branch at every position of the (lower-cased) text, tracking the
preceding character for the \b test. -/
def branchScan (b : RBranch) : Option Char → List Char → Bool
  | before, [] => branchAt b before []
  | before, c :: cs => branchAt b before (c :: cs) || branchScan b (some c) cs

structure SiteRule where
  branches : List RBranch
  lon : ℚ
  lat : ℚ
  name : String

/-- rule.test.test(name): the regex applied to the raw (mixed-case) label. -/
def ruleTest (ru : SiteRule) (name : String) : Bool :=
  ru.branches.any (fun b => branchScan b none (lowerList name.toList))

/-- The ordered site dictionary of LaunchSitesMap._installSiteDictionary
(identical in every variant).  Alternations are expanded branch by branch
with the boundary placement of the original regex source. -/
def siteDict : List SiteRule :=
  [⟨[⟨true, ["kourou"], true⟩, ⟨true, ["guiana"], true⟩], -52.768, 5.239,
    "Guiana Space Center"⟩,
   ⟨[⟨true, ["cape", "canaveral"], false⟩, ⟨false, ["kennedy"], true⟩], -80.605, 28.396,
    "Cape Canaveral / KSC"⟩,
   ⟨[⟨true, ["vandenberg"], true⟩], -120.611, 34.632, "Vandenberg"⟩,
   ⟨[⟨true, ["baikonur"], true⟩], 63.305, 45.964, "Baikonur Cosmodrome"⟩,
   ⟨[⟨true, ["plesetsk"], true⟩], 40.577, 62.925, "Plesetsk Cosmodrome"⟩,
   ⟨[⟨true, ["jiuquan"], true⟩], 100.298, 40.960, "Jiuquan SLC"⟩,
   ⟨[⟨true, ["xichang"], true⟩], 102.026, 28.246, "Xichang SLC"⟩,
   ⟨[⟨true, ["taiyuan"], true⟩], 111.608, 38.846, "Taiyuan SLC"⟩,
   ⟨[⟨true, ["wenchang"], true⟩], 110.951, 19.614, "Wenchang SLS"⟩,
   ⟨[⟨true, ["tanegashima"], true⟩], 130.957, 30.375, "Tanegashima"⟩,
   ⟨[⟨true, ["uchinoura"], false⟩, ⟨false, ["kagoshima"], true⟩], 131.081, 31.251,
    "Uchinoura"⟩,
   ⟨[⟨true, ["svobodny"], false⟩, ⟨false, ["vostochny"], true⟩], 128.12, 51.42,
    "Svobodny/Vostochny"⟩,
   ⟨[⟨true, ["satish"], false⟩, ⟨false, ["sriharikota"], false⟩, ⟨false, ["shar"], true⟩],
    80.235, 13.733, "Satish Dhawan (Sriharikota)"⟩,
   ⟨[⟨true, ["naro"], true⟩], 127.535, 34.431, "Naro"⟩,
   ⟨[⟨true, ["wallops"], true⟩], -75.466, 37.940, "Wallops"⟩,
   ⟨[⟨true, ["kodiak"], false⟩, ⟨false, ["psca"], true⟩], -152.339, 57.435,
    "Kodiak (PSCA)"⟩,
   ⟨[⟨true, ["mahia"], false⟩, ⟨true, ["mahía"], false⟩, ⟨false, ["rocket", "lab"], false⟩,
     ⟨false, ["lc-1"], true⟩], 177.865, -39.262, "LC-1 Mahia"⟩,
   ⟨[⟨true, ["dombarov"], false⟩, ⟨false, ["yasny"], true⟩], 59.533, 50.803,
    "Dombarovsky (Yasny)"⟩,
   ⟨[⟨true, ["sea", "launch"], false⟩, ⟨false, ["odyssey"], true⟩], -154.0, 0.000,
    "Sea Launch (equator)"⟩]

/-- LaunchSitesMap._siteFromName: falsy name → null, else the first matching
rule of the ordered dictionary, else null. -/
def siteFromName (name : String) : Option (ℚ × ℚ × String) :=
  if name = "" then none
  else
    match siteDict.find? (fun ru => ruleTest ru name) with
    | some ru => some (ru.lon, ru.lat, ru.name)
    | none => none

/- ===================== Shared normalization pieces ===================== -/

def siteNameKeys : List String := ["launch_site", "Launch Site", "Launch_Site", "Site"]

def dateKeys : List String :=
  ["date_of_launch", "Date of Launch", "Launch_Date", "Launch Date", "Date"]

def latKeys : List String :=
  ["Launch_Site_Lat", "Launch Site Lat", "Launch Site Latitude", "site_lat", "lat",
   "Latitude"]

def lonKeys : List String :=
  ["Launch_Site_Lon", "Launch Site Lon", "Launch Site Longitude", "site_lon", "lon",
   "Longitude"]

/-- LaunchSitesMap._parseDate followed by getFullYear, restricted to the
ISO-leading-year strings (YYYY, YYYY-MM, YYYY-MM-DD) of the dataset: both
the new Date(raw) path and the leading-four-digits regex fallback yield the
four-digit year on those inputs; other host-specific date formats are
outside the model. -/
def parseLaunchYear : Option String → Option Nat
  | none => none
  | some s =>
    if s = "" then none
    else
      match s.toList with
      | c1 :: c2 :: c3 :: c4 :: _ =>
        if c1.isDigit && c2.isDigit && c3.isDigit && c4.isDigit then
          some (natOfDigits [c1, c2, c3, c4])
        else none
      | _ => none

/-- The +this._pick(...) numeric coercion: undefined → NaN, else ToNumber of
the (necessarily non-empty) picked string. -/
def jnum : Option String → Option ℚ
  | none => none
  | some s => parseNumJS s

/-- Number.prototype.toFixed(4) for the exact decimal coordinates of the
site dictionary and dataset (all within double precision at 4 decimals). -/
def toFixed4 (q : ℚ) : String :=
  let a : ℚ := if q < 0 then -q else q
  let n : Nat := (Rat.floor (a * 10000 + 1 / 2)).toNat
  let ip := n / 10000
  let fp := n % 10000
  let fs := toString fp
  let pad := String.mk (List.replicate (4 - fs.length) '0')
  (if q < 0 then "-" else "") ++ toString ip ++ "." ++ pad ++ fs

/-- The template literal building a SiteKey from coordinates. -/
def mkKey (lon lat : ℚ) : String := toFixed4 lon ++ "," ++ toFixed4 lat

/- ============ LaunchSitesMap (timeline variant): events + snapshots ============ -/

structure Ev where
  key : String
  lon : ℚ
  lat : ℚ
  year : Nat
  siteName : String
deriving DecidableEq

/-- The body of the row loop of _prepLaunchEvents (timeline variant):
site label, parsed date, explicit coordinates when both are numbers, else
the dictionary guess; unresolvable rows produce no event (continue). -/
def rowEvent (r : Row) : Option Ev :=
  let siteName := (pick r siteNameKeys).getD ("")
  match parseLaunchYear (pick r dateKeys) with
  | none => none
  | some year =>
    let ev (lo la : ℚ) : Ev :=
      ⟨mkKey lo la, lo, la, year, if siteName = "" then "Unknown site" else siteName⟩
    match jnum (pick r latKeys), jnum (pick r lonKeys) with
    | some la, some lo => some (ev lo la)
    | _, _ =>
      match siteFromName siteName with
      | some (lo, la, _) => some (ev lo la)
      | none => none

instance : DecidableRel (fun (a b : Ev) => a.year ≤ b.year) :=
  fun a b => Nat.decLe a.year b.year

/-- The event list of _prepLaunchEvents: surviving rows, sorted by year. -/
def prepLaunchEvents (rows : List Row) : List Ev :=
  List.insertionSort (fun a b => a.year ≤ b.year) (rows.filterMap rowEvent)

structure SiteAgg where
  key : String
  lon : ℚ
  lat : ℚ
  siteName : String
  count : Nat
deriving DecidableEq

abbrev SiteMap := List (String × SiteAgg)

/-- Applying one event to the running cumulative map: create the zero
aggregate on first sight of the key, then count += 1. -/
def bumpSite (m : SiteMap) (ev : Ev) : SiteMap :=
  setEntry m ev.key
    { (alook m ev.key).getD ⟨ev.key, ev.lon, ev.lat, ev.siteName, 0⟩ with
      count := ((alook m ev.key).getD ⟨ev.key, ev.lon, ev.lat, ev.siteName, 0⟩).count + 1 }

/-- All events of one year applied to the running map
(eventsByYear[year].forEach). -/
def yearFold (evts : List Ev) (m : SiteMap) (y : Nat) : SiteMap :=
  (evts.filter (fun e => e.year == y)).foldl bumpSite m

/-- The years.forEach loop building cumulativeByYear: process each year in
order and store a snapshot copy of the running map after it. -/
def snapsAux (evts : List Ev) : SiteMap → List Nat → List (Nat × SiteMap)
  | _, [] => []
  | m, y :: ys =>
    let m2 := yearFold evts m y
    (y, m2) :: snapsAux evts m2 ys

/-- Array.from(new Set(events.map(e => e.year))).sort((a,b) => a-b). -/
def yearsOf (evts : List Ev) : List Nat :=
  List.insertionSort (· ≤ ·) (evts.map Ev.year).dedup

def cumulativeByYear (evts : List Ev) : List (Nat × SiteMap) :=
  snapsAux evts [] (yearsOf evts)

/-- snapshot(y)[k]: the aggregate stored for site key k in the cumulative
snapshot of year y. -/
def lookupSnap (evts : List Ev) (y : Nat) (k : String) : Option SiteAgg :=
  (alook (cumulativeByYear evts) y).bind (fun m => alook m k)

/- ============ LaunchSitesMap (donut variant, part_004): categories ============ -/

def userKeys : List String := ["users", "Users", "User", "Owner Type", "Category"]

inductive LCat
  | Government
  | Military
  | Commercial
  | Civilian
deriving DecidableEq

/-- LaunchSitesMap._normalizeCategory: priority substring tests on the
lower-cased value, default Civilian. -/
def normalizeCategory : Option String → LCat
  | none => .Civilian
  | some s =>
    if s = "" then .Civilian
    else
      let v := lowerStr s
      if subStr ("milit") v then .Military
      else if subStr ("gov") v then .Government
      else if subStr ("com") v then .Commercial
      else if subStr ("civil") v then .Civilian
      else if subStr ("research") v || subStr ("university") v then .Civilian
      else .Civilian

structure Ev4 where
  key : String
  lon : ℚ
  lat : ℚ
  year : Nat
  category : LCat
  siteName : String
deriving DecidableEq

/-- The row loop of the donut variant _prepLaunchEvents: as the timeline
variant plus the normalized users category.  The full launch date is kept by
the source only for the caption and the chronological sort; the model keeps
its year. -/
def rowEvent4 (r : Row) : Option Ev4 :=
  let siteName := (pick r siteNameKeys).getD ("")
  let users := pick r userKeys
  match parseLaunchYear (pick r dateKeys) with
  | none => none
  | some year =>
    let cat := normalizeCategory users
    let ev (lo la : ℚ) : Ev4 :=
      ⟨mkKey lo la, lo, la, year, cat, if siteName = "" then "Unknown site" else siteName⟩
    match jnum (pick r latKeys), jnum (pick r lonKeys) with
    | some la, some lo => some (ev lo la)
    | _, _ =>
      match siteFromName siteName with
      | some (lo, la, _) => some (ev lo la)
      | none => none

instance : DecidableRel (fun (a b : Ev4) => a.year ≤ b.year) :=
  fun a b => Nat.decLe a.year b.year

/-- events.sort((a,b) => a.dt - b.dt) over the surviving rows. -/
def prepLaunchEvents4 (rows : List Row) : List Ev4 :=
  List.insertionSort (fun a b => a.year ≤ b.year) (rows.filterMap rowEvent4)

structure ByCat where
  government : Nat
  military : Nat
  commercial : Nat
  civilian : Nat
deriving DecidableEq

def bumpCat (b : ByCat) : LCat → ByCat
  | .Government => { b with government := b.government + 1 }
  | .Military => { b with military := b.military + 1 }
  | .Commercial => { b with commercial := b.commercial + 1 }
  | .Civilian => { b with civilian := b.civilian + 1 }

structure Site4 where
  key : String
  lon : ℚ
  lat : ℚ
  siteName : String
  count : Nat
  byCat : ByCat
deriving DecidableEq

/-- LaunchSitesMap._tick (donut variant): consume the next event, creating
the site with zeroed per-category counters on first sight, then increment
count and the event category counter. -/
def tick4 (sites : List (String × Site4)) (ev : Ev4) : List (String × Site4) :=
  let s := (alook sites ev.key).getD ⟨ev.key, ev.lon, ev.lat, ev.siteName, 0, ⟨0, 0, 0, 0⟩⟩
  setEntry sites ev.key
    { s with count := s.count + 1, byCat := bumpCat s.byCat ev.category }

/-- Run the playback to completion: every event consumed once, in order. -/
def runLaunchTicks (rows : List Row) : List (String × Site4) :=
  (prepLaunchEvents4 rows).foldl tick4 []

/- ============ LaunchSitesMap (detail-panel variant): all-time stats ============ -/

inductive OwnKind
  | government
  | commercial
  | unknown
deriving DecidableEq

def primaryOwnerKeys : List String :=
  ["Ownership", "Owner Type", "Owner_Type", "Operator Type", "Operator_Category",
   "User Type", "User type", "Users", "Owner/Operator", "Operator/Owner"]

/-- The /owner|user|operat|category|type/i key filter of _classifyOwnership. -/
def ownKeyTest (k : String) : Bool :=
  ciTest ("owner") k || ciTest ("user") k || ciTest ("operat") k ||
    ciTest ("category") k || ciTest ("type") k

def joinBar : List String → String
  | [] => ""
  | [s] => s
  | s :: rest => s ++ " | " ++ joinBar rest

/-- LaunchSitesMap._classifyOwnership (detail-panel variant): primary column
pick, fallback scan of matching keys joined with a bar, then priority
substring classification; empty evidence is unknown. -/
def classifyOwnership (r : Row) : OwnKind :=
  let primary := pick r primaryOwnerKeys
  let raw0 := lowerStr (primary.getD (""))
  let raw :=
    if raw0 = "" then
      joinBar (((r.map Prod.fst).filter ownKeyTest).map
        (fun k => lowerStr ((rlook r k).getD (""))))
    else raw0
  if raw = "" then .unknown
  else if subStr ("gov") raw || subStr ("military") raw || subStr ("state") raw ||
      subStr ("civil") raw || subStr ("government") raw then .government
  else if subStr ("comm") raw || subStr ("commercial") raw || subStr ("private") raw then
    .commercial
  else .unknown

def countryKeys : List String :=
  ["Launch_Site_Country", "Launch Site Country", "Country of Launch", "Launch Country",
   "Country"]

/-- Site resolution of the detail-panel _prepLaunchEvents: canonical name
from the dictionary when it matches, explicit coordinates when both parse,
dictionary coordinates otherwise, and row dropped when neither exists. -/
def resolve2 (r : Row) : Option (ℚ × ℚ × String × String) :=
  let rawSiteName := (pick r siteNameKeys).getD ("")
  let lk := siteFromName rawSiteName
  let canonical :=
    match lk with
    | some (_, _, nm) => nm
    | none => if rawSiteName = "" then "Unknown site" else rawSiteName
  let country := (pick r countryKeys).getD ("Unknown")
  match jnum (pick r latKeys), jnum (pick r lonKeys) with
  | some la, some lo => some (lo, la, canonical, country)
  | _, _ =>
    match lk with
    | some (lo, la, _) => some (lo, la, canonical, country)
    | none => none

structure SiteStats where
  key : String
  lon : ℚ
  lat : ℚ
  siteName : String
  country : String
  total : Nat
  govTotal : Nat
  commTotal : Nat
deriving DecidableEq

/-- The all-time statistics update of one accepted row: total += 1 always;
govTotal / commTotal only for the matching classification. -/
def stepStats (m : List (String × SiteStats)) (r : Row) : List (String × SiteStats) :=
  match parseLaunchYear (pick r dateKeys) with
  | none => m
  | some _ =>
    match resolve2 r with
    | none => m
    | some (lo, la, nm, ct) =>
      let k := mkKey lo la
      let cur := (alook m k).getD ⟨k, lo, la, nm, ct, 0, 0, 0⟩
      let cls := classifyOwnership r
      setEntry m k
        { cur with
          total := cur.total + 1
          govTotal := cur.govTotal + (if cls = .government then 1 else 0)
          commTotal := cur.commTotal + (if cls = .commercial then 1 else 0) }

/-- allTimeStats over the whole row stream. -/
def allTimeStats (rows : List Row) : List (String × SiteStats) :=
  rows.foldl stepStats []

/- ===================== Playback state machine ===================== -/

structure Playback where
  isPlaying : Bool
  idx : Nat
deriving DecidableEq

/-- LaunchSitesMap._stepForward over n years: advance unless at the last
year index. -/
def stepForwardP (n : Nat) (st : Playback) : Playback :=
  if st.idx < n - 1 then { st with idx := st.idx + 1 } else st

/-- LaunchSitesMap._stepBackward: retreat unless at index 0. -/
def stepBackwardP (st : Playback) : Playback :=
  if 0 < st.idx then { st with idx := st.idx - 1 } else st

/-- The setInterval callback of _startPlayback: advance when not at the last
year, otherwise _pause() (isPlaying := false, index unchanged). -/
def tickP (n : Nat) (st : Playback) : Playback :=
  if st.idx < n - 1 then { st with idx := st.idx + 1 }
  else { st with isPlaying := false }

inductive PAct
  | forward
  | backward
  | tick
deriving DecidableEq

def applyAct (n : Nat) (st : Playback) : PAct → Playback
  | .forward => stepForwardP n st
  | .backward => stepBackwardP st
  | .tick => tickP n st

def runActs (n : Nat) (st : Playback) (acts : List PAct) : Playback :=
  acts.foldl (applyAct n) st

/- ===================== Specification accessors ===================== -/

/-- The cumulativeCount read off a snapshot map (0 when the site is absent,
matching the "treat missing as zero" reading of a snapshot). -/
def countAt (m : SiteMap) (k : String) : Nat :=
  ((alook m k).map SiteAgg.count).getD 0

/-- The per-year loop of the snapshot builder, written as a fold so that the
snapshot stored for a year is the fold over the processed prefix of years. -/
def foldYears (evts : List Ev) (m : SiteMap) (ys : List Nat) : SiteMap :=
  ys.foldl (yearFold evts) m

def totAt (m : List (String × SiteStats)) (k : String) : Nat :=
  ((alook m k).map SiteStats.total).getD 0

def govTotAt (m : List (String × SiteStats)) (k : String) : Nat :=
  ((alook m k).map SiteStats.govTotal).getD 0

def commTotAt (m : List (String × SiteStats)) (k : String) : Nat :=
  ((alook m k).map SiteStats.commTotal).getD 0

/-- The end-to-end scenario input of spec 8.6: three Baikonur launches,
one Government in 2015 and two Commercial in 2016, as raw rows. -/
def baikonurRows : List Row :=
  [[("Site", "Baikonur Cosmodrome"), ("Date", "2015-06-01"), ("Users", "Government")],
   [("Site", "Baikonur Cosmodrome"), ("Date", "2016-02-02"), ("Users", "Commercial")],
   [("Site", "Baikonur Cosmodrome"), ("Date", "2016-09-09"), ("Users", "Commercial")]]

/- ===================== Association-map lemmas ===================== -/

theorem alook_nil {κ α : Type} [DecidableEq κ] (k : κ) :
    alook ([] : List (κ × α)) k = none := rfl

theorem alook_cons_pair {κ α : Type} [DecidableEq κ] (x : κ × α) (rest : List (κ × α))
    (k2 : κ) :
    alook (x :: rest) k2 = if k2 = x.1 then some x.2 else alook rest k2 := rfl

theorem alook_map_update {κ α : Type} [DecidableEq κ] (m : List (κ × α)) (k : κ) (v : α)
    (k2 : κ) :
    alook (m.map (fun p => if p.1 = k then (k, v) else p)) k2 =
      if k2 = k then (alook m k).map (fun _ => v) else alook m k2 := by
  induction m with
  | nil => by_cases h : k2 = k <;> simp [alook_nil, h]
  | cons p rest ih =>
    obtain ⟨k1, v1⟩ := p
    rw [List.map_cons]
    simp only [alook_cons_pair]
    by_cases h1 : k1 = k <;> by_cases h2 : k2 = k <;> by_cases h3 : k2 = k1 <;>
      simp_all [ih]

theorem alook_append {κ α : Type} [DecidableEq κ] (m n : List (κ × α)) (k : κ) :
    alook (m ++ n) k = match alook m k with
      | some v => some v
      | none => alook n k := by
  induction m with
  | nil => rfl
  | cons p rest ih =>
    obtain ⟨k1, v1⟩ := p
    rw [List.cons_append]
    simp only [alook_cons_pair]
    by_cases h : k = k1 <;> simp [h, ih]

theorem alook_setEntry {κ α : Type} [DecidableEq κ] (m : List (κ × α)) (k : κ) (v : α)
    (k2 : κ) :
    alook (setEntry m k v) k2 = if k2 = k then some v else alook m k2 := by
  unfold setEntry
  by_cases hs : (alook m k).isSome
  · rw [if_pos hs, alook_map_update]
    by_cases h : k2 = k
    · obtain ⟨a, ha⟩ := Option.isSome_iff_exists.mp hs
      simp [h, ha]
    · simp [h]
  · rw [if_neg hs, alook_append]
    have hnone : alook m k = none := Option.not_isSome_iff_eq_none.mp hs
    by_cases h : k2 = k
    · subst h
      rw [hnone]
      simp [alook_cons_pair]
    · cases halt : alook m k2 <;>
        simp [h, halt, alook_cons_pair, alook_nil]

/- ===================== C8: playback state machine ===================== -/

theorem applyAct_idx_bound (n : Nat) (st : Playback) (a : PAct)
    (h : st.idx ≤ n - 1) : (applyAct n st a).idx ≤ n - 1 := by
  cases a with
  | forward =>
    show (stepForwardP n st).idx ≤ n - 1
    unfold stepForwardP
    split
    · rename_i hlt
      show st.idx + 1 ≤ n - 1
      omega
    · exact h
  | backward =>
    show (stepBackwardP st).idx ≤ n - 1
    unfold stepBackwardP
    split
    · rename_i hlt
      show st.idx - 1 ≤ n - 1
      omega
    · exact h
  | tick =>
    show (tickP n st).idx ≤ n - 1
    unfold tickP
    split
    · rename_i hlt
      show st.idx + 1 ≤ n - 1
      omega
    · exact h

/-- C8.  Playback state machine of the timeline LaunchSitesMap: under any
sequence of stepForward, stepBackward and playback ticks the year index
stays within [0, lastYearIndex] (stepForward at the last index and
stepBackward at index 0 leave the state unchanged), and a tick that fires
while playing at the last year index stops playback without advancing or
looping back to year 0. -/
theorem c8_playback_clamps :
    (∀ (n : Nat) (st : Playback) (acts : List PAct),
        st.idx ≤ n - 1 → (runActs n st acts).idx ≤ n - 1) ∧
    (∀ (n : Nat) (st : Playback), st.idx = n - 1 → stepForwardP n st = st) ∧
    (∀ st : Playback, st.idx = 0 → stepBackwardP st = st) ∧
    (∀ (n : Nat) (st : Playback), st.isPlaying = true → st.idx = n - 1 →
        tickP n st = ⟨false, n - 1⟩) := by
  refine ⟨?_, ?_, ?_, ?_⟩
  · intro n st acts
    induction acts generalizing st with
    | nil => intro h; simpa [runActs] using h
    | cons a rest ih =>
      intro h
      have h1 := applyAct_idx_bound n st a h
      simpa [runActs] using ih (applyAct n st a) h1
  · intro n st h
    simp only [stepForwardP]
    rw [if_neg (by omega)]
  · intro st h
    simp only [stepBackwardP]
    rw [if_neg (by omega)]
  · intro n st hp h
    simp only [tickP]
    rw [if_neg (by omega)]
    cases st
    simp_all

theorem c8_playback_clamps_witness :
    (runActs 3 ⟨false, 0⟩ [.forward, .tick, .forward, .forward]).idx ≤ 2 ∧
    tickP 3 ⟨true, 2⟩ = ⟨false, 2⟩ := by
  constructor
  · exact c8_playback_clamps.1 3 ⟨false, 0⟩ [.forward, .tick, .forward, .forward]
      (by decide)
  · exact c8_playback_clamps.2.2.2 3 ⟨true, 2⟩ (by decide) (by decide)

/- ===================== C3: ellipse validity ===================== -/

theorem ellipse_core (ap pe : ℝ) (hpe : 0 ≤ pe) (hle : pe ≤ ap) :
    0 ≤ semiMajorPx ap pe ∧ 0 ≤ semiMinorPx ap pe ∧
      semiMinorPx ap pe ≤ semiMajorPx ap pe := by
  have ha : 0 ≤ semiMajorPx ap pe := by
    simp only [semiMajorPx]
    linarith
  refine ⟨ha, Real.sqrt_nonneg _, ?_⟩
  have h1 : max 0 (semiMajorPx ap pe * semiMajorPx ap pe - cFocusPx ap pe * cFocusPx ap pe)
      ≤ semiMajorPx ap pe * semiMajorPx ap pe := by
    apply max_le (mul_nonneg ha ha)
    nlinarith [mul_self_nonneg (cFocusPx ap pe)]
  calc semiMinorPx ap pe
      ≤ Real.sqrt (semiMajorPx ap pe * semiMajorPx ap pe) := Real.sqrt_le_sqrt h1
    _ = semiMajorPx ap pe := Real.sqrt_mul_self ha

/-- C3.  Ellipse validity: for an orbit record with 0 ≤ perigee ≤ apogee,
after the linear pixel scale of Congestion.updateVis, the computed
semi-minor axis sqrt(max(0, a*a - c*c)) is at most the semi-major axis
a = (ap + pe) / 2, and both are non-negative.  (Finiteness is inherent to
the real-number model: finite inputs produce finite reals.) -/
theorem c3_ellipse_validity (m rmax peKm apKm : ℝ)
    (hm : 0 < m) (hr : 0 ≤ rmax) (hpe : 0 ≤ peKm) (hle : peKm ≤ apKm) :
    0 ≤ semiMajorPx (linScale m rmax apKm) (linScale m rmax peKm) ∧
    0 ≤ semiMinorPx (linScale m rmax apKm) (linScale m rmax peKm) ∧
    semiMinorPx (linScale m rmax apKm) (linScale m rmax peKm) ≤
      semiMajorPx (linScale m rmax apKm) (linScale m rmax peKm) := by
  have hk : 0 ≤ rmax / m := div_nonneg hr hm.le
  have hpe2 : 0 ≤ linScale m rmax peKm := mul_nonneg hpe hk
  have hle2 : linScale m rmax peKm ≤ linScale m rmax apKm :=
    mul_le_mul_of_nonneg_right hle hk
  exact ellipse_core _ _ hpe2 hle2

theorem c3_ellipse_validity_witness :
    0 ≤ semiMajorPx (linScale 1 1 2) (linScale 1 1 0) ∧
    0 ≤ semiMinorPx (linScale 1 1 2) (linScale 1 1 0) ∧
    semiMinorPx (linScale 1 1 2) (linScale 1 1 0) ≤
      semiMajorPx (linScale 1 1 2) (linScale 1 1 0) :=
  c3_ellipse_validity 1 1 0 2 (by norm_num) (by norm_num) (by norm_num) (by norm_num)

/- ===================== C2: dual attribution ===================== -/

/-- C2.  Dual attribution in governmentVsCommercial._processData: a record
whose owner field splits (on semicolon, comma, slash) into more than one
token, with at least one token matching /gov/i and at least one matching
/com/i, increments both the Government and the Commercial counter of its
(parsed, non-zero) year by exactly one each, rather than a single category. -/
theorem c2_dual_attribution (r : Row) (y : Nat) (yearly : List (Nat × GovYear))
    (hy : rowYearGov r = some y) (hy0 : y ≠ 0)
    (hlen : 1 < (ownersOf r).length)
    (hgov : (ownersOf r).any matchGovI = true)
    (hcom : (ownersOf r).any matchComI = true) :
    govAt (stepGov yearly r) y = govAt yearly y + 1 ∧
    comAt (stepGov yearly r) y = comAt yearly y + 1 := by
  have hlen0 : ¬(ownersOf r).length = 0 := by omega
  have hdual : (decide (1 < (ownersOf r).length) && (ownersOf r).any matchGovI &&
      (ownersOf r).any matchComI) = true := by
    rw [decide_eq_true hlen, hgov, hcom]
    rfl
  have hstep : stepGov yearly r =
      setEntry yearly y
        ⟨((alook yearly y).getD ⟨0, 0⟩).government + 1,
         ((alook yearly y).getD ⟨0, 0⟩).commercial + 1⟩ := by
    unfold stepGov
    rw [hy]
    simp only [if_neg hy0, if_neg hlen0, hdual, if_true]
  rw [hstep]
  unfold govAt comAt
  rw [alook_setEntry, if_pos rfl]
  exact ⟨rfl, rfl⟩

theorem c2_dual_attribution_witness :
    govAt (stepGov [] [("Launch_Date", "2016-07-04"), ("users", "Government/Commercial")])
        2016 =
      govAt [] 2016 + 1 ∧
    comAt (stepGov [] [("Launch_Date", "2016-07-04"), ("users", "Government/Commercial")])
        2016 =
      comAt [] 2016 + 1 :=
  c2_dual_attribution _ 2016 [] (by decide) (by decide) (by decide) (by decide) (by decide)

/- ===================== C4: date extraction ===================== -/

theorem orChain_cons_truthy (v : String) (vs : List (Option String)) (hv : v ≠ "") :
    orChain (some v :: vs) = some v := by
  cases vs with
  | nil => rfl
  | cons w ws =>
    show (if v = "" then orChain (w :: ws) else some v) = some v
    rw [if_neg hv]

theorem orChain_cons_falsy (v : Option String) (vs : List (Option String))
    (hv : v = none ∨ v = some ("")) (hne : vs ≠ []) :
    orChain (v :: vs) = orChain vs := by
  cases vs with
  | nil => exact absurd rfl hne
  | cons w ws =>
    rcases hv with rfl | rfl
    · rfl
    · show (if "" = "" then orChain (w :: ws) else some ("")) = orChain (w :: ws)
      rw [if_pos rfl]

theorem orChain_mem (l : List (Option String)) (v : String) (h : orChain l = some v) :
    some v ∈ l := by
  induction l with
  | nil => exact absurd h (by simp [orChain])
  | cons x xs ih =>
    cases xs with
    | nil =>
      have hx : x = some v := h
      simp [hx]
    | cons w ws =>
      cases x with
      | none => exact List.mem_cons_of_mem _ (ih h)
      | some s =>
        by_cases hs : s = ""
        · have h2 : orChain (w :: ws) = some v := by
            have h3 : (if s = "" then orChain (w :: ws) else some s) = some v := h
            rwa [if_pos hs] at h3
          exact List.mem_cons_of_mem _ (ih h2)
        · have h3 : (if s = "" then orChain (w :: ws) else some s) = some v := h
          rw [if_neg hs] at h3
          have hsv : s = v := Option.some.inj h3
          rw [← hsv]
          exact List.mem_cons_self _ _

/-- C4.  Date extraction in gov-vs-com: the year is taken from the first
non-empty accepted date field in list order (the || chain skips undefined
and empty values and keeps the first truthy one); the value 2016-07-04
yields year 2016; and when no accepted field contains a 4-digit run
(including the empty string or null under all accepted keys) the year is
null and the record is skipped by the aggregation step. -/
theorem c4_date_extraction :
    (∀ r : Row, govDateVal r = some ("2016-07-04") → rowYearGov r = some 2016) ∧
    rowYearGov [("Launch_Date", "2016-07-04")] = some 2016 ∧
    (∀ (v : String) (vs : List (Option String)), v ≠ "" →
        orChain (some v :: vs) = some v) ∧
    (∀ (v : Option String) (vs : List (Option String)),
        (v = none ∨ v = some ("")) → vs ≠ [] → orChain (v :: vs) = orChain vs) ∧
    (∀ r : Row,
        (∀ k, k ∈ govDateKeys → ∀ v, rlook r k = some v → find4Run v.toList = none) →
        rowYearGov r = none ∧ ∀ yearly, stepGov yearly r = yearly) := by
  refine ⟨?_, by decide, orChain_cons_truthy, orChain_cons_falsy, ?_⟩
  · intro r h
    unfold rowYearGov
    rw [h]
    decide
  · intro r hk
    have hnone : rowYearGov r = none := by
      unfold rowYearGov
      cases hv : govDateVal r with
      | none => rfl
      | some v =>
        have hmem : some v ∈ govDateKeys.map (rlook r) := orChain_mem _ _ hv
        obtain ⟨k, hkmem, hkv⟩ := List.mem_map.mp hmem
        have hfind : find4Run v.toList = none := hk k hkmem v hkv
        show (if v = "" then none else find4Run v.toList) = none
        by_cases he : v = ""
        · rw [if_pos he]
        · rw [if_neg he, hfind]
    refine ⟨hnone, fun yearly => ?_⟩
    unfold stepGov
    rw [hnone]

theorem c4_date_extraction_witness :
    rowYearGov [("Date", "july fourth")] = none ∧
    stepGov [] [("Date", "july fourth")] = [] := by
  have hk : ∀ k, k ∈ govDateKeys → ∀ v,
      rlook [("Date", "july fourth")] k = some v → find4Run v.toList = none := by
    intro k hkk v hv
    fin_cases hkk <;> simp [rlook] at hv
    subst hv
    decide
  have h := c4_date_extraction.2.2.2.2 [("Date", "july fourth")] hk
  exact ⟨h.1, h.2 []⟩

/- ===================== C6: unresolvable sites are dropped ===================== -/

/-- C6.  A raw record with no parsed explicit latitude/longitude whose site
label matches no rule of the ordered site dictionary resolves to null and is
dropped: the row produces no event at all (in particular none with
coordinates defaulted to (0,0)), and removing it from the row stream leaves
the prepared event stream unchanged. -/
theorem c6_unresolvable_site_dropped (r : Row)
    (hco : jnum (pick r latKeys) = none ∨ jnum (pick r lonKeys) = none)
    (hdict : ∀ ru ∈ siteDict, ruleTest ru ((pick r siteNameKeys).getD ("")) = false) :
    siteFromName ((pick r siteNameKeys).getD ("")) = none ∧
    rowEvent r = none ∧
    ∀ rs1 rs2 : List Row,
      prepLaunchEvents (rs1 ++ r :: rs2) = prepLaunchEvents (rs1 ++ rs2) := by
  have hsite : siteFromName ((pick r siteNameKeys).getD ("")) = none := by
    unfold siteFromName
    by_cases hnm : (pick r siteNameKeys).getD ("") = ""
    · rw [if_pos hnm]
    · rw [if_neg hnm]
      have hfind : siteDict.find?
          (fun ru => ruleTest ru ((pick r siteNameKeys).getD (""))) = none := by
        rw [List.find?_eq_none]
        intro ru hru
        rw [hdict ru hru]
        simp
      rw [hfind]
  have hev : rowEvent r = none := by
    unfold rowEvent
    cases hpy : parseLaunchYear (pick r dateKeys) with
    | none => rfl
    | some year =>
      rcases hco with hla | hlo
      · rw [hla]
        simp [hsite]
      · cases hla2 : jnum (pick r latKeys) with
        | none => simp [hsite]
        | some la =>
          rw [hlo]
          simp [hsite]
  refine ⟨hsite, hev, fun rs1 rs2 => ?_⟩
  unfold prepLaunchEvents
  rw [List.filterMap_append, List.filterMap_append, List.filterMap_cons, hev]

theorem c6_unresolvable_site_dropped_witness :
    siteFromName ((pick [("Site", "Atlantis Base"), ("Date", "1999-01-01")]
      siteNameKeys).getD ("")) = none ∧
    rowEvent [("Site", "Atlantis Base"), ("Date", "1999-01-01")] = none ∧
    prepLaunchEvents [[("Site", "Atlantis Base"), ("Date", "1999-01-01")]] =
      prepLaunchEvents [] := by
  have h := c6_unresolvable_site_dropped
    [("Site", "Atlantis Base"), ("Date", "1999-01-01")] (Or.inl (by decide)) (by decide)
  exact ⟨h.1, h.2.1, h.2.2 [] []⟩

/- ===================== C7: idempotent site keying ===================== -/

/-- C7.  Idempotent site keying: the labels Cape Canaveral and Kennedy Space
Center (no explicit coordinates) are matched by the same dictionary rule,
resolve to the identical SiteKey string built from the coordinates of that rule,
and therefore accumulate into the same site aggregate (count 2 in the later
snapshot). -/
theorem c7_idempotent_site_keying :
    siteFromName ("Cape Canaveral") = some (-80.605, 28.396, "Cape Canaveral / KSC") ∧
    siteFromName ("Kennedy Space Center") =
      some (-80.605, 28.396, "Cape Canaveral / KSC") ∧
    (rowEvent [("Site", "Cape Canaveral"), ("Date", "2001-01-01")]).map Ev.key =
      some ("-80.6050,28.3960") ∧
    (rowEvent [("Site", "Kennedy Space Center"), ("Date", "2002-01-01")]).map Ev.key =
      some ("-80.6050,28.3960") ∧
    ((lookupSnap (prepLaunchEvents
        [[("Site", "Cape Canaveral"), ("Date", "2001-01-01")],
         [("Site", "Kennedy Space Center"), ("Date", "2002-01-01")]]) 2002
        ("-80.6050,28.3960")).map SiteAgg.count) = some 2 := by
  decide

/- ===================== C9: end-to-end scenario ===================== -/

/-- C9 as stated is false on the code: the SiteKey built by the template
literal uses toFixed(4), so the Baikonur key is the padded string
63.3050,45.9640 and a lookup under the key 63.305,45.964 of the claim finds
no aggregate in either snapshot. -/
theorem c9_end_to_end_counterexample :
    lookupSnap (prepLaunchEvents baikonurRows) 2015 ("63.305,45.964") = none ∧
    lookupSnap (prepLaunchEvents baikonurRows) 2016 ("63.305,45.964") = none := by
  decide

/-- C9 amended.  The end-to-end scenario with the padded SiteKey of the code:
the three Baikonur rows (Government 2015, Commercial 2016, Commercial 2016)
yield cumulativeCount 1 in snapshot(2015) and 3 in snapshot(2016) under the
key 63.3050,45.9640, and the per-category counters of the donut pipeline
count 1 Government and 2 Commercial for that site. -/
theorem c9_end_to_end :
    (lookupSnap (prepLaunchEvents baikonurRows) 2015 ("63.3050,45.9640")).map
        SiteAgg.count = some 1 ∧
    (lookupSnap (prepLaunchEvents baikonurRows) 2016 ("63.3050,45.9640")).map
        SiteAgg.count = some 3 ∧
    (alook (runLaunchTicks baikonurRows) ("63.3050,45.9640")).map
        (fun s => (s.byCat.government, s.byCat.commercial)) = some (1, 2) := by
  decide

/- ===================== C5: numeric coercion and the apogee max ===================== -/

/-- C5 as stated is false on the code: coerceRow does map the empty apogee
to NaN, but loadCongestion and the updateVis accessor then re-coerce NaN to
0 via || 0, so the maximum over the field treats the missing value as 0
(and the || 1 default turns that 0 into 1) instead of excluding it: over
the rows with apogee -5 and an empty apogee the code statistic is 1 while
the missing-excluded maximum of the spec is -5. -/
theorem c5_coercion_counterexample :
    apogees [[("apogee_(km)", "-5")], [("apogee_(km)", "")]] = [some (-5), none] ∧
    codeMaxApogee [some (-5), none] = 1 ∧
    specMaxApogee [some (-5), none] = -5 ∧
    codeMaxApogee [some (-5), none] =
      specMaxApogee ([some (-5), none].map (fun v => some (nanToZero v))) ∧
    codeMaxApogee [some (-5), none] ≠ specMaxApogee [some (-5), none] := by
  decide

theorem d3max_zero_aux :
    ∀ (vals : List (Option ℚ)) (accL accR : Option ℚ),
      (∀ q : ℚ, some q ∈ vals → 0 ≤ q) →
      (accR = none → accL = none ∨ accL = some 0) →
      (∀ m, accR = some m → accL = some m ∧ 0 ≤ m) →
      ((vals.map (fun v => some (nanToZero v))).foldl d3maxStep accL = none →
          vals.foldl d3maxStep accR = none) ∧
      (vals.foldl d3maxStep accR = none →
          (vals.map (fun v => some (nanToZero v))).foldl d3maxStep accL = none ∨
          (vals.map (fun v => some (nanToZero v))).foldl d3maxStep accL = some 0) ∧
      (∀ m, vals.foldl d3maxStep accR = some m →
          (vals.map (fun v => some (nanToZero v))).foldl d3maxStep accL = some m ∧
          0 ≤ m) := by
  intro vals
  induction vals with
  | nil =>
    intro accL accR _ h1 h2
    refine ⟨?_, h1, h2⟩
    intro hL
    cases hR : accR with
    | none => rfl
    | some m => exact absurd ((h2 m hR).1.symm.trans hL) (by simp)
  | cons v vs ih =>
    intro accL accR hpos h1 h2
    have hpos2 : ∀ q : ℚ, some q ∈ vs → 0 ≤ q :=
      fun q hq => hpos q (List.mem_cons_of_mem _ hq)
    rw [List.map_cons, List.foldl_cons, List.foldl_cons]
    cases v with
    | none =>
      apply ih _ _ hpos2
      · intro hR
        rcases h1 hR with hL | hL <;> rw [hL] <;>
          simp [d3maxStep, nanToZero]
      · intro m hR
        obtain ⟨hL, hm⟩ := h2 m hR
        rw [hL]
        refine ⟨?_, hm⟩
        simp [d3maxStep, nanToZero, max_eq_left hm]
    | some q =>
      have hq : 0 ≤ q := hpos q (List.mem_cons_self _ _)
      apply ih _ _ hpos2
      · intro hR
        cases hRacc : accR with
        | none => exact absurd hR (by simp [hRacc, d3maxStep])
        | some m => exact absurd hR (by simp [hRacc, d3maxStep])
      · intro m hR
        cases hRacc : accR with
        | none =>
          rw [hRacc] at hR
          have hmq : m = q := by
            have : (some q : Option ℚ) = some m := hR
            exact (Option.some.inj this).symm
          subst hmq
          rcases h1 hRacc with hL | hL <;> rw [hL] <;>
            simp [d3maxStep, nanToZero, max_eq_right hq, hq]
        | some m0 =>
          obtain ⟨hL, hm0⟩ := h2 m0 hRacc
          rw [hRacc] at hR
          have hmm : m = max m0 q := by
            have : (some (max m0 q) : Option ℚ) = some m := hR
            exact (Option.some.inj this).symm
          subst hmm
          rw [hL]
          constructor
          · simp [d3maxStep, nanToZero]
          · exact le_trans hm0 (le_max_left _ _)

/-- C5 amended.  coerceRow maps an empty or null orbital field to NaN,
never to 0; downstream, loadCongestion and the updateVis accessor replace
NaN by 0 before the maximum, so the statistic treats missing values as
zero; this coincides with the missing-excluded maximum of the spec (and hence
the scale domain) exactly when every present value is non-negative, as for
real apogee data. -/
theorem c5_coercion_amended :
    toNum (some ("")) = none ∧ toNum none = none ∧ toNum (some ("")) ≠ some 0 ∧
    ∀ vals : List (Option ℚ), (∀ q : ℚ, some q ∈ vals → 0 ≤ q) →
      codeMaxApogee vals = specMaxApogee vals := by
  refine ⟨rfl, rfl, by decide, ?_⟩
  intro vals h
  have aux := d3max_zero_aux vals none none h (fun _ => Or.inl rfl)
    (fun m hm => absurd hm (by simp))
  unfold codeMaxApogee specMaxApogee d3maxOpt
  cases hR : vals.foldl d3maxStep none with
  | none =>
    rcases aux.2.1 hR with hL | hL <;> rw [hL] <;> simp [orOne]
  | some m =>
    obtain ⟨hL, _⟩ := aux.2.2 m hR
    rw [hL]

theorem c5_coercion_amended_witness :
    codeMaxApogee [some 2, none] = specMaxApogee [some 2, none] := by
  apply c5_coercion_amended.2.2.2
  intro q hq
  simp at hq
  subst hq
  norm_num

/- ===================== C10: gov + comm ≤ total ===================== -/

theorem stepStats_preserves (m : List (String × SiteStats)) (r : Row)
    (hinv : ∀ k s, alook m k = some s → s.govTotal + s.commTotal ≤ s.total) :
    ∀ k s, alook (stepStats m r) k = some s → s.govTotal + s.commTotal ≤ s.total := by
  intro k s hs
  unfold stepStats at hs
  cases hp : parseLaunchYear (pick r dateKeys) with
  | none =>
    rw [hp] at hs
    exact hinv k s hs
  | some yr =>
    rw [hp] at hs
    cases hr2 : resolve2 r with
    | none =>
      rw [hr2] at hs
      exact hinv k s hs
    | some quad =>
      obtain ⟨lo, la, nm, ct⟩ := quad
      rw [hr2] at hs
      rw [alook_setEntry] at hs
      by_cases hk : k = mkKey lo la
      · rw [if_pos hk] at hs
        have hcur : ((alook m (mkKey lo la)).getD
            ⟨mkKey lo la, lo, la, nm, ct, 0, 0, 0⟩).govTotal +
            ((alook m (mkKey lo la)).getD
              ⟨mkKey lo la, lo, la, nm, ct, 0, 0, 0⟩).commTotal ≤
            ((alook m (mkKey lo la)).getD
              ⟨mkKey lo la, lo, la, nm, ct, 0, 0, 0⟩).total := by
          cases hc : alook m (mkKey lo la) with
          | none => simp [hc]
          | some s0 =>
            have := hinv _ s0 hc
            simpa [hc] using this
        have hseq := (Option.some.inj hs).symm
        subst hseq
        cases hcls : classifyOwnership r <;> simp [hcls] <;> omega
      · rw [if_neg hk] at hs
        exact hinv k s hs

theorem allTimeStats_inv (rows : List Row) :
    ∀ (m : List (String × SiteStats)),
      (∀ k s, alook m k = some s → s.govTotal + s.commTotal ≤ s.total) →
      ∀ k s, alook (rows.foldl stepStats m) k = some s →
        s.govTotal + s.commTotal ≤ s.total := by
  induction rows with
  | nil => intro m hm; exact hm
  | cons r rs ih =>
    intro m hm
    rw [List.foldl_cons]
    exact ih _ (stepStats_preserves m r hm)

/-- C10.  In every reachable state of the per-site all-time statistics
(i.e. after processing any row stream), every site satisfies
govTotal + commTotal ≤ total; and a row whose ownership classifies as
unknown increments only the total of the site, leaving govTotal and commTotal
unchanged, so the two categories need not partition the total. -/
theorem c10_gov_comm_le_total :
    (∀ (rows : List Row) (k : String) (s : SiteStats),
        alook (allTimeStats rows) k = some s → s.govTotal + s.commTotal ≤ s.total) ∧
    (∀ (m : List (String × SiteStats)) (r : Row) (yr : Nat) (lo la : ℚ) (nm ct : String),
        parseLaunchYear (pick r dateKeys) = some yr →
        resolve2 r = some (lo, la, nm, ct) →
        classifyOwnership r = .unknown →
        totAt (stepStats m r) (mkKey lo la) = totAt m (mkKey lo la) + 1 ∧
        govTotAt (stepStats m r) (mkKey lo la) = govTotAt m (mkKey lo la) ∧
        commTotAt (stepStats m r) (mkKey lo la) = commTotAt m (mkKey lo la)) := by
  constructor
  · intro rows k s hs
    exact allTimeStats_inv rows [] (fun k s h => absurd h (by simp [alook_nil])) k s hs
  · intro m r yr lo la nm ct hp hr2 hcls
    have hstep : stepStats m r =
        setEntry m (mkKey lo la)
          { (alook m (mkKey lo la)).getD ⟨mkKey lo la, lo, la, nm, ct, 0, 0, 0⟩ with
            total := ((alook m (mkKey lo la)).getD
              ⟨mkKey lo la, lo, la, nm, ct, 0, 0, 0⟩).total + 1
            govTotal := ((alook m (mkKey lo la)).getD
              ⟨mkKey lo la, lo, la, nm, ct, 0, 0, 0⟩).govTotal
            commTotal := ((alook m (mkKey lo la)).getD
              ⟨mkKey lo la, lo, la, nm, ct, 0, 0, 0⟩).commTotal } := by
      unfold stepStats
      rw [hp, hr2, hcls]
      simp
    rw [hstep]
    unfold totAt govTotAt commTotAt
    rw [alook_setEntry, if_pos rfl]
    cases hc : alook m (mkKey lo la) with
    | none => simp [hc]
    | some s0 => simp [hc]

theorem c10_gov_comm_le_total_witness :
    ((⟨"-75.4660,37.9400", -75.466, 37.940, "Wallops", "Unknown", 1, 0, 0⟩ :
        SiteStats).govTotal +
      (⟨"-75.4660,37.9400", -75.466, 37.940, "Wallops", "Unknown", 1, 0, 0⟩ :
        SiteStats).commTotal ≤
      (⟨"-75.4660,37.9400", -75.466, 37.940, "Wallops", "Unknown", 1, 0, 0⟩ :
        SiteStats).total) ∧
    totAt (stepStats [] [("Site", "Wallops"), ("Date", "2010-01-01"),
        ("Users", "Mystery Org")]) ("-75.4660,37.9400") =
      totAt [] ("-75.4660,37.9400") + 1 := by
  constructor
  · exact c10_gov_comm_le_total.1
      [[("Site", "Wallops"), ("Date", "2010-01-01"), ("Users", "Mystery Org")]]
      ("-75.4660,37.9400")
      ⟨"-75.4660,37.9400", -75.466, 37.940, "Wallops", "Unknown", 1, 0, 0⟩
      (by decide)
  · have h := c10_gov_comm_le_total.2 []
      [("Site", "Wallops"), ("Date", "2010-01-01"), ("Users", "Mystery Org")]
      2010 (-75.466) (37.940) ("Wallops") ("Unknown")
      (by decide) (by decide) (by decide)
    exact h.1

/- ===================== C1: monotonic cumulation ===================== -/

theorem countP_split_pointwise {α : Type} (l : List α) (p q r : α → Bool)
    (h : ∀ a ∈ l,
      (if p a then 1 else 0 : Nat) = (if q a then 1 else 0) + (if r a then 1 else 0)) :
    l.countP p = l.countP q + l.countP r := by
  induction l with
  | nil => rfl
  | cons a as ih =>
    rw [List.countP_cons, List.countP_cons, List.countP_cons]
    have ihh := ih (fun b hb => h b (List.mem_cons_of_mem _ hb))
    have ha := h a (List.mem_cons_self a as)
    omega

theorem countP_congrB {α : Type} (l : List α) (p q : α → Bool)
    (h : ∀ a ∈ l, p a = q a) : l.countP p = l.countP q := by
  induction l with
  | nil => rfl
  | cons a as ih =>
    rw [List.countP_cons, List.countP_cons, h a (List.mem_cons_self a as),
      ih (fun b hb => h b (List.mem_cons_of_mem _ hb))]

theorem countAt_bumpSite (m : SiteMap) (ev : Ev) (k : String) :
    countAt (bumpSite m ev) k = countAt m k + (if ev.key = k then 1 else 0) := by
  unfold countAt bumpSite
  rw [alook_setEntry]
  by_cases h : k = ev.key
  · subst h
    rw [if_pos rfl, if_pos rfl]
    cases hc : alook m ev.key <;> simp [hc]
  · rw [if_neg h, if_neg (fun hh => h hh.symm)]
    omega

theorem alook_bumpSite_none (m : SiteMap) (ev : Ev) (k : String) :
    alook (bumpSite m ev) k = none ↔ alook m k = none ∧ ¬ev.key = k := by
  unfold bumpSite
  rw [alook_setEntry]
  by_cases h : k = ev.key
  · subst h
    simp
  · rw [if_neg h]
    have hne : ¬ev.key = k := fun hh => h hh.symm
    simp [hne]

theorem countAt_foldl_bump (evs : List Ev) (m : SiteMap) (k : String) :
    countAt (evs.foldl bumpSite m) k = countAt m k + evs.countP (fun e => e.key == k) := by
  induction evs generalizing m with
  | nil => simp
  | cons e es ih =>
    rw [List.foldl_cons, ih, countAt_bumpSite, List.countP_cons]
    by_cases h : e.key = k <;> simp [beq_iff_eq, h] <;> omega

theorem alook_foldl_bump_none (evs : List Ev) (m : SiteMap) (k : String) :
    alook (evs.foldl bumpSite m) k = none ↔
      alook m k = none ∧ evs.countP (fun e => e.key == k) = 0 := by
  induction evs generalizing m with
  | nil => simp
  | cons e es ih =>
    rw [List.foldl_cons, ih, alook_bumpSite_none, List.countP_cons]
    by_cases h : e.key = k <;> simp [beq_iff_eq, h] <;> omega

theorem countAt_yearFold (evts : List Ev) (m : SiteMap) (y : Nat) (k : String) :
    countAt (yearFold evts m y) k =
      countAt m k + evts.countP (fun e => e.key == k && e.year == y) := by
  unfold yearFold
  rw [countAt_foldl_bump, List.countP_filter]

theorem alook_yearFold_none (evts : List Ev) (m : SiteMap) (y : Nat) (k : String) :
    alook (yearFold evts m y) k = none ↔
      alook m k = none ∧ evts.countP (fun e => e.key == k && e.year == y) = 0 := by
  unfold yearFold
  rw [alook_foldl_bump_none, List.countP_filter]

theorem countP_mem_cons_split (evts : List Ev) (k : String) (y : Nat) (ys : List Nat)
    (hy : y ∉ ys) :
    evts.countP (fun e => e.key == k && decide (e.year ∈ y :: ys)) =
      evts.countP (fun e => e.key == k && e.year == y) +
      evts.countP (fun e => e.key == k && decide (e.year ∈ ys)) := by
  apply countP_split_pointwise
  intro a _
  by_cases h2 : a.year = y
  · subst h2
    by_cases h1 : a.key = k <;> simp [h1, hy]
  · by_cases h1 : a.key = k <;> by_cases h3 : a.year ∈ ys <;>
      simp [h1, h2, h3]

theorem countAt_foldYears (evts : List Ev) (ys : List Nat) (m : SiteMap) (k : String)
    (hnd : ys.Nodup) :
    countAt (foldYears evts m ys) k =
      countAt m k + evts.countP (fun e => e.key == k && decide (e.year ∈ ys)) := by
  induction ys generalizing m with
  | nil => simp [foldYears]
  | cons y ys ih =>
    obtain ⟨hy, hnd2⟩ := List.nodup_cons.mp hnd
    rw [show foldYears evts m (y :: ys) = foldYears evts (yearFold evts m y) ys from rfl,
      ih (yearFold evts m y) hnd2, countAt_yearFold,
      countP_mem_cons_split evts k y ys hy]
    omega

theorem alook_foldYears_none (evts : List Ev) (ys : List Nat) (m : SiteMap) (k : String)
    (hnd : ys.Nodup) :
    alook (foldYears evts m ys) k = none ↔
      alook m k = none ∧ evts.countP (fun e => e.key == k && decide (e.year ∈ ys)) = 0 := by
  induction ys generalizing m with
  | nil => simp [foldYears]
  | cons y ys ih =>
    obtain ⟨hy, hnd2⟩ := List.nodup_cons.mp hnd
    rw [show foldYears evts m (y :: ys) = foldYears evts (yearFold evts m y) ys from rfl,
      ih (yearFold evts m y) hnd2, alook_yearFold_none,
      countP_mem_cons_split evts k y ys hy]
    constructor
    · rintro ⟨⟨ha, h1⟩, h2⟩
      exact ⟨ha, by omega⟩
    · rintro ⟨ha, h12⟩
      exact ⟨⟨ha, by omega⟩, by omega⟩

theorem alook_snapsAux (evts : List Ev) :
    ∀ (ys : List Nat), ys.Pairwise (· < ·) → ∀ (m : SiteMap) (y : Nat), y ∈ ys →
      alook (snapsAux evts m ys) y =
        some (foldYears evts m (ys.takeWhile (fun a => decide (a ≤ y)))) := by
  intro ys
  induction ys with
  | nil =>
    intro _ m y hy
    exact absurd hy (List.not_mem_nil y)
  | cons y0 ys ih =>
    intro hp m y hy
    obtain ⟨hall, htail⟩ := List.pairwise_cons.mp hp
    rw [show snapsAux evts m (y0 :: ys) =
        (y0, yearFold evts m y0) :: snapsAux evts (yearFold evts m y0) ys from rfl,
      alook_cons_pair]
    by_cases h0 : y = y0
    · subst h0
      rw [if_pos rfl]
      have htw : (y :: ys).takeWhile (fun a => decide (a ≤ y)) = [y] := by
        rw [List.takeWhile_cons, if_pos (by simp)]
        cases ys with
        | nil => rfl
        | cons z zs =>
          rw [List.takeWhile_cons,
            if_neg (by
              have hz := hall z (List.mem_cons_self z zs)
              simp
              omega)]
      rw [htw]
      rfl
    · rw [if_neg h0]
      have hymem : y ∈ ys := by
        rcases List.mem_cons.mp hy with h | h
        · exact absurd h h0
        · exact h
      rw [ih htail (yearFold evts m y0) y hymem]
      have hy0y : y0 ≤ y := le_of_lt (hall y hymem)
      have htw : (y0 :: ys).takeWhile (fun a => decide (a ≤ y)) =
          y0 :: ys.takeWhile (fun a => decide (a ≤ y)) := by
        rw [List.takeWhile_cons, if_pos (by simpa using hy0y)]
      rw [htw]
      rfl

theorem mem_takeWhile_le (ys : List Nat) (y : Nat) (hp : ys.Pairwise (· < ·)) (z : Nat) :
    z ∈ ys.takeWhile (fun a => decide (a ≤ y)) ↔ z ∈ ys ∧ z ≤ y := by
  induction ys with
  | nil => simp
  | cons w ws ih =>
    obtain ⟨hall, htail⟩ := List.pairwise_cons.mp hp
    rw [List.takeWhile_cons]
    by_cases hw : w ≤ y
    · rw [if_pos (by simpa using hw)]
      rw [List.mem_cons, List.mem_cons, ih htail]
      constructor
      · rintro (rfl | ⟨hz, hzy⟩)
        · exact ⟨Or.inl rfl, hw⟩
        · exact ⟨Or.inr hz, hzy⟩
      · rintro ⟨rfl | hz, hzy⟩
        · exact Or.inl rfl
        · exact Or.inr ⟨hz, hzy⟩
    · rw [if_neg (by simpa using hw)]
      constructor
      · intro h
        exact absurd h (List.not_mem_nil z)
      · rintro ⟨hz, hzy⟩
        rcases List.mem_cons.mp hz with rfl | hz2
        · exact absurd hzy hw
        · exact absurd (le_trans (le_of_lt (hall z hz2)) hzy) hw

theorem yearsOf_pairwise (evts : List Ev) : (yearsOf evts).Pairwise (· < ·) := by
  have hsorted : (yearsOf evts).Pairwise (· ≤ ·) :=
    List.sorted_insertionSort (· ≤ ·) _
  have hnodup : (yearsOf evts).Nodup :=
    ((List.perm_insertionSort (· ≤ ·) _).nodup_iff).mpr (List.nodup_dedup _)
  exact (hsorted.and hnodup).imp (fun h => lt_of_le_of_ne h.1 h.2)

theorem yearsOf_nodup (evts : List Ev) : (yearsOf evts).Nodup :=
  ((List.perm_insertionSort (· ≤ ·) _).nodup_iff).mpr (List.nodup_dedup _)

theorem mem_yearsOf_of_mem (evts : List Ev) (e : Ev) (he : e ∈ evts) :
    e.year ∈ yearsOf evts := by
  unfold yearsOf
  rw [(List.perm_insertionSort (· ≤ ·) _).mem_iff, List.mem_dedup]
  exact List.mem_map_of_mem Ev.year he

theorem lookupSnap_char (evts : List Ev) (y : Nat) (hy : y ∈ yearsOf evts) (k : String) :
    (lookupSnap evts y k = none ↔
      evts.countP (fun e => e.key == k && decide (e.year ≤ y)) = 0) ∧
    (∀ a, lookupSnap evts y k = some a →
      a.count = evts.countP (fun e => e.key == k && decide (e.year ≤ y))) := by
  have hpw := yearsOf_pairwise evts
  have hsnap := alook_snapsAux evts (yearsOf evts) hpw [] y hy
  have htw_nodup : ((yearsOf evts).takeWhile (fun a => decide (a ≤ y))).Nodup :=
    (yearsOf_nodup evts).sublist (List.takeWhile_sublist _)
  have hcongr : evts.countP (fun e => e.key == k &&
        decide (e.year ∈ (yearsOf evts).takeWhile (fun a => decide (a ≤ y)))) =
      evts.countP (fun e => e.key == k && decide (e.year ≤ y)) := by
    apply countP_congrB
    intro e he
    have hmem := mem_yearsOf_of_mem evts e he
    have hiff := mem_takeWhile_le (yearsOf evts) y hpw e.year
    by_cases hky : e.key = k
    · simp only [hky, beq_self_eq_true, Bool.true_and]
      rw [decide_eq_decide, hiff]
      constructor
      · rintro ⟨_, hz⟩
        exact hz
      · intro hz
        exact ⟨hmem, hz⟩
    · have hb : (e.key == k) = false := beq_eq_false_iff_ne.mpr hky
      rw [hb, Bool.false_and, Bool.false_and]
  have hM : lookupSnap evts y k =
      alook (foldYears evts [] ((yearsOf evts).takeWhile (fun a => decide (a ≤ y)))) k := by
    unfold lookupSnap cumulativeByYear
    rw [hsnap]
    rfl
  constructor
  · rw [hM, alook_foldYears_none evts _ [] k htw_nodup, hcongr]
    simp [alook_nil]
  · intro a ha
    rw [hM] at ha
    have hc := countAt_foldYears evts
      ((yearsOf evts).takeWhile (fun a => decide (a ≤ y))) [] k htw_nodup
    rw [hcongr] at hc
    unfold countAt at hc
    rw [ha] at hc
    simpa [alook_nil] using hc

/-- C1.  Monotone cumulation: for years y1 < y2 both present in the event
stream, any site key present in the snapshot for y1 is present in the
snapshot for y2, its cumulative count does not decrease, and the difference
is exactly the number of events of that site key with year in (y1, y2]. -/
theorem c1_monotonic_cumulation (evts : List Ev) (y1 y2 : Nat)
    (h1 : y1 ∈ yearsOf evts) (h2 : y2 ∈ yearsOf evts) (hlt : y1 < y2)
    (k : String) (a1 : SiteAgg) (hk : lookupSnap evts y1 k = some a1) :
    ∃ a2 : SiteAgg, lookupSnap evts y2 k = some a2 ∧
      a1.count ≤ a2.count ∧
      a2.count = a1.count +
        evts.countP (fun e => e.key == k && decide (y1 < e.year) && decide (e.year ≤ y2)) := by
  obtain ⟨hnone1, hsome1⟩ := lookupSnap_char evts y1 h1 k
  obtain ⟨hnone2, hsome2⟩ := lookupSnap_char evts y2 h2 k
  have hc1 : a1.count = evts.countP (fun e => e.key == k && decide (e.year ≤ y1)) :=
    hsome1 a1 hk
  have hsplit : evts.countP (fun e => e.key == k && decide (e.year ≤ y2)) =
      evts.countP (fun e => e.key == k && decide (e.year ≤ y1)) +
      evts.countP (fun e => e.key == k && decide (y1 < e.year) && decide (e.year ≤ y2)) := by
    apply countP_split_pointwise
    intro e _
    by_cases ha : e.key = k <;> by_cases hb : e.year ≤ y1 <;>
      by_cases hcY : e.year ≤ y2 <;> by_cases hd : y1 < e.year <;>
      simp [ha, hb, hcY, hd] <;> omega
  have hne1 : evts.countP (fun e => e.key == k && decide (e.year ≤ y1)) ≠ 0 := by
    intro h0
    have hcontr := hnone1.mpr h0
    rw [hk] at hcontr
    exact absurd hcontr (by simp)
  cases hres : lookupSnap evts y2 k with
  | none =>
    have h0 := hnone2.mp hres
    omega
  | some a2 =>
    have hc2 := hsome2 a2 hres
    exact ⟨a2, rfl, by omega, by omega⟩

theorem c1_monotonic_cumulation_witness :
    ∃ a2 : SiteAgg,
      lookupSnap [⟨"k1", 0, 0, 2015, "s"⟩, ⟨"k1", 0, 0, 2016, "s"⟩] 2016 ("k1") =
        some a2 ∧
      (⟨"k1", 0, 0, "s", 1⟩ : SiteAgg).count ≤ a2.count ∧
      a2.count = (⟨"k1", 0, 0, "s", 1⟩ : SiteAgg).count +
        ([⟨"k1", 0, 0, 2015, "s"⟩, ⟨"k1", 0, 0, 2016, "s"⟩] : List Ev).countP
          (fun e => e.key == "k1" && decide (2015 < e.year) && decide (e.year ≤ 2016)) :=
  c1_monotonic_cumulation [⟨"k1", 0, 0, 2015, "s"⟩, ⟨"k1", 0, 0, 2016, "s"⟩]
    2015 2016 (by decide) (by decide) (by decide) ("k1")
    ⟨"k1", 0, 0, "s", 1⟩ (by decide)

end SatViz
